import Mathlib

/-!
Verification of the session resolution and status-inference engine of a
terminal monitoring dashboard (source: `src/session.rs`).  The Rust code is
shallowly embedded: strings are `List Char`, file contents are `List Nat`
(bytes), machine integers are `Nat`/`Int`, fallible operations return
`Option`.  External collaborators (the OS process source, the tmux pane
source, `serde_json`, `chrono`) are modelled at their interfaces: their
results appear as explicit inputs of the embedded functions.
-/

set_option maxRecDepth 10000

/-- Convenience: the character list underlying a string literal. -/
def s2l (s : String) : List Char := s.data

/-! ## Path/Directory-Name codec (`convert_path_to_dir_name`, session.rs:588-608) -/

/-- Model of the char loop of `convert_path_to_dir_name`: a separator whose
peeked successor is a dot emits `--` and consumes the dot; any other
separator emits `-`; every other character is copied unchanged. -/
def encodeLoop : List Char → List Char
  | [] => []
  | c :: rest =>
    if c = '/' then
      match rest with
      | [] => ['-']
      | d :: rest' =>
        if d = '.' then '-' :: '-' :: encodeLoop rest'
        else '-' :: encodeLoop (d :: rest')
    else c :: encodeLoop rest

/-- Model of `path.strip_prefix(the separator).unwrap_or(path)`: drop one
leading separator when present. -/
def dropLeadSlash : List Char → List Char
  | [] => []
  | c :: rest => if c = '/' then rest else c :: rest

/-- Embedding of `convert_path_to_dir_name` (session.rs:588-608). -/
def convert_path_to_dir_name (path : List Char) : List Char :=
  '-' :: encodeLoop (dropLeadSlash path)

/-- Split a char list into its first `/`-separated segment and the list of
the remaining segments.  Used only by the spec-side formulation of the
codec. -/
def splitSl : List Char → List Char × List (List Char)
  | [] => ([], [])
  | c :: rest =>
    if c = '/' then ([], (splitSl rest).1 :: (splitSl rest).2)
    else (c :: (splitSl rest).1, (splitSl rest).2)

/-- Spec-side rendering of one non-initial segment: a hidden segment
(leading dot) is rendered as `--` with its dot consumed, any other segment
as `-` followed by the segment. -/
def segPart (t : List Char) : List Char :=
  if t.head? = some '.' then '-' :: '-' :: t.tail else '-' :: t

/-- Spec-side rendering of all segments after the first. -/
def joinRest : List (List Char) → List Char
  | [] => []
  | t :: ts => segPart t ++ joinRest ts

/-- Modelled from the spec's words (§4.1): strip the leading separator,
split into segments, keep the first segment, render each following boundary
as `-` (or `--` swallowing a hidden segment's dot), and prefix the whole
result with `-`. -/
def specEncode (path : List Char) : List Char :=
  let p := dropLeadSlash path
  '-' :: ((splitSl p).1 ++ joinRest (splitSl p).2)

/-! ## Status classifier (`determine_status`, session.rs:491-537) -/

inductive SessionStatus where
  | thinking
  | processing
  | waiting
  | idle
deriving DecidableEq, Repr

/-- Embedding of `determine_status` (session.rs:491-537).  The Rust `match`
on `Option<&str>` with literal patterns is rendered as an if-chain on the
same tests; the redundant `has_tool_use` split of the assistant arm is kept
exactly as written. -/
def determine_status (role : Option (List Char))
    (has_tool_use has_tool_result is_local_command is_interrupted
     recently_modified : Bool) : SessionStatus :=
  if role = some (s2l (r"assistant")) then
    if has_tool_use then
      if recently_modified then .processing else .waiting
    else if recently_modified then .processing else .waiting
  else if role = some (s2l (r"user")) then
    if is_local_command || is_interrupted then .waiting
    else if has_tool_result then
      if recently_modified then .thinking else .waiting
    else if recently_modified then .thinking else .waiting
  else
    if recently_modified then .thinking else .idle

/-- Modelled from the spec's words (§4.4 decision table): assistant rows
collapse the tool-use split; user rows keep the local-command/interrupt,
tool-result and default rows; absent or other roles map to Thinking/Idle on
recency. -/
def classifySpec (role : Option (List Char))
    (hasToolUse hasToolResult isLocalCommand isInterrupted
     recentlyModified : Bool) : SessionStatus :=
  if role = some (s2l (r"assistant")) then
    if recentlyModified then .processing else .waiting
  else if role = some (s2l (r"user")) then
    if isLocalCommand || isInterrupted then .waiting
    else if hasToolResult then
      if recentlyModified then .thinking else .waiting
    else if recentlyModified then .thinking else .waiting
  else
    if recentlyModified then .thinking else .idle

/-! ## Preview truncation (session.rs:397-404) -/

def MESSAGE_TRUNCATE_LEN : Nat := 100

/-- Ellipsis marker appended by the truncation (the `...` of the
`format!` call). -/
def ellipsisMarker : List Char := ['.', '.', '.']

/-- Embedding of the preview truncation closure of `parse_project_session`
(session.rs:398-404): `m.chars().count()` is the length of the char list. -/
def truncate_message (m : List Char) : List Char :=
  if MESSAGE_TRUNCATE_LEN < m.length then
    m.take MESSAGE_TRUNCATE_LEN ++ ellipsisMarker
  else m

/-! ## Historical age (`parse_iso_age`, session.rs:280-290) -/

/-- Model of chrono's `TimeDelta::num_seconds`: whole seconds of a duration
given in nanoseconds, truncated toward zero. -/
def durationNumSeconds (nanos : Int) : Int := nanos.tdiv 1000000000

/-- Embedding of `parse_iso_age` (session.rs:280-290).  The RFC3339 parse
performed by the external chrono crate is modelled by its result: `parsed`
is `some dt` (the timestamp in nanoseconds) on success and `none` on
failure; `now` is the current time in nanoseconds. -/
def parse_iso_age (parsed : Option Int) (now : Int) : Nat :=
  match parsed with
  | some dt => (max (durationNumSeconds (now - dt)) 0).toNat
  | none => 999999

/-! ## Record extractor (session.rs:540-585) -/

/-- One item of a content array, as far as the extractor inspects it: its
optional string field `type` and its optional string field `text`.  A
non-object item, or an item whose fields have non-string values, is
represented with both fields `none` (exactly what the `.get(..).and_then(as_str)`
chains observe). -/
structure JItem where
  ttype : Option (List Char)
  text : Option (List Char)
deriving DecidableEq, Repr

/-- Shape of `serde_json::Value` as far as the extractor inspects a `content`
value: a string, an array of items, or anything else. -/
inductive JContent where
  | str (s : List Char)
  | arr (items : List JItem)
  | other
deriving DecidableEq, Repr

/-- Embedding of the `message` field of `JsonlMessage` (session.rs:112-116). -/
structure MessageContent where
  role : Option (List Char)
  content : Option JContent
deriving DecidableEq, Repr

/-- Embedding of `JsonlMessage` (session.rs:102-110), the serde target for
one JSONL record. -/
structure JsonlMessage where
  session_id : Option (List Char)
  msg_type : Option (List Char)
  message : Option MessageContent
deriving DecidableEq, Repr

/-- Embedding of `check_content_type` (session.rs:540-551). -/
def check_content_type (c : JContent) (type_name : List Char) : Bool :=
  match c with
  | .arr items => items.any (fun it => it.ttype == some type_name)
  | _ => false

/-- Embedding of `extract_text` (session.rs:572-585). -/
def extract_text (c : JContent) : Option (List Char) :=
  match c with
  | .str s => if s.isEmpty then none else some s
  | .arr items =>
      items.findSome? (fun it =>
        match it.text with
        | some t => if t.isEmpty then none else some t
        | none => none)
  | .other => none

/-- Marker looked for by `check_interrupted` (session.rs:556). -/
def interruptMarker : List Char := s2l (r"[Request interrupted by user]")

/-- Model of Rust `str::contains` with a literal pattern: the needle occurs
as a contiguous subsequence of the haystack. -/
def containsSeq (needle : List Char) : List Char → Bool
  | [] => needle.isEmpty
  | c :: t => needle.isPrefixOf (c :: t) || containsSeq needle t

/-- Embedding of `check_interrupted` (session.rs:554-558). -/
def check_interrupted (c : JContent) : Bool :=
  match extract_text c with
  | some t => containsSeq interruptMarker t
  | none => false

/-- Embedding of the `LOCAL_COMMANDS` allow-list (session.rs:20-24). -/
def LOCAL_COMMANDS : List (List Char) :=
  [s2l (r"/clear"), s2l (r"/compact"), s2l (r"/help"), s2l (r"/config"),
   s2l (r"/cost"), s2l (r"/doctor"), s2l (r"/init"), s2l (r"/login"),
   s2l (r"/logout"), s2l (r"/memory"), s2l (r"/model"), s2l (r"/permissions"),
   s2l (r"/pr-comments"), s2l (r"/review"), s2l (r"/status"),
   s2l (r"/terminal-setup"), s2l (r"/vim")]

/-- Whitespace predicate modelling Rust `char::is_whitespace` on the ASCII
whitespace characters (the extractor only ever trims log text). -/
def isRustWs (c : Char) : Bool :=
  c == ' ' || c == '\t' || c == '\n' || c == '\r' ||
  c == '\x0b' || c == '\x0c'

/-- Model of Rust `str::trim`. -/
def trimStr (s : List Char) : List Char :=
  ((s.dropWhile isRustWs).reverse.dropWhile isRustWs).reverse

/-- Embedding of `check_local_command` (session.rs:560-570). -/
def check_local_command (c : JContent) : Bool :=
  match extract_text c with
  | none => false
  | some t =>
      let trimmed := trimStr t
      LOCAL_COMMANDS.any (fun cmd =>
        trimmed == cmd || (cmd ++ [' ']).isPrefixOf trimmed)

/-! ## Tail-scan of `parse_project_session` (session.rs:330-375) -/

/-- Content is non-empty as judged by the scan loop (session.rs:346-350):
a non-empty string or a non-empty array. -/
def msgHasContent (c : JContent) : Bool :=
  match c with
  | .str s => !s.isEmpty
  | .arr a => !a.isEmpty
  | .other => false

/-- Mutable state of the scan loop in `parse_project_session`
(session.rs:330-336). -/
structure ScanState where
  session_id : Option (List Char)
  last_role : Option (List Char)
  has_tool_use : Bool
  has_tool_result : Bool
  last_message : Option (List Char)
  is_local_command : Bool
  is_interrupted : Bool
deriving DecidableEq, Repr

/-- Initial scan state (all `None`/`false`). -/
def initScan : ScanState := ⟨none, none, false, false, none, false, false⟩

/-- Effect of one successfully-parsed record on the scan state
(session.rs:340-368): record the session id if still absent; on the first
record with non-empty content set role and the four signals; keep looking
for text until some is found. -/
def scanStep (st : ScanState) (msg : JsonlMessage) : ScanState :=
  let st1 := if st.session_id.isNone then { st with session_id := msg.session_id } else st
  match msg.message with
  | none => st1
  | some mc =>
    match mc.content with
    | none => st1
    | some c =>
      if msgHasContent c then
        let st2 :=
          if st1.last_role.isNone then
            { st1 with
              last_role := mc.role
              has_tool_use := check_content_type c (s2l (r"tool_use"))
              has_tool_result := check_content_type c (s2l (r"tool_result"))
              is_local_command := check_local_command c
              is_interrupted := check_interrupted c }
          else st1
        if st2.last_message.isNone then { st2 with last_message := extract_text c }
        else st2
      else st1

/-- Early-stop test of the scan loop (session.rs:371). -/
def scanAllFound (st : ScanState) : Bool :=
  st.session_id.isSome && st.last_role.isSome && st.last_message.isSome

/-- The scan loop over lines already placed in most-recent-first order; a
`none` entry is a line that failed to parse as a `JsonlMessage` (the serde
parse is external and modelled by its result). -/
def scanLoop : ScanState → List (Option JsonlMessage) → ScanState
  | st, [] => st
  | st, l :: ls =>
    match l with
    | none => scanLoop st ls
    | some msg =>
      let st' := scanStep st msg
      if scanAllFound st' then st' else scanLoop st' ls

/-- Scan of the tailed lines (chronological order) from most recent to
oldest (`lines.iter().rev()`, session.rs:338). -/
def scanLines (lines : List (Option JsonlMessage)) : ScanState :=
  scanLoop initScan lines.reverse

/-- Content of a record as seen by the scan (the `message.content` chain). -/
def msgContent (m : JsonlMessage) : Option JContent :=
  match m.message with
  | some mc => mc.content
  | none => none

/-- Record has non-empty content. -/
def msgContentful (m : JsonlMessage) : Bool :=
  match msgContent m with
  | some c => msgHasContent c
  | none => false

/-- Record has non-empty content and a present role: exactly the records
whose signals survive the scan. -/
def msgRoleContentful (m : JsonlMessage) : Bool :=
  match m.message with
  | some mc =>
      (match mc.content with
       | some c => msgHasContent c
       | none => false)
      && mc.role.isSome
  | none => false

/-- Text a record contributes to the scan: extracted text of its non-empty
content, `none` otherwise. -/
def msgText (m : JsonlMessage) : Option (List Char) :=
  match msgContent m with
  | some c => if msgHasContent c then extract_text c else none
  | none => none

/-- Signals a record with non-empty content contributes:
(role, hasToolUse, hasToolResult, isLocalCommand, isInterrupted). -/
def signalsOf (m : JsonlMessage) : Option (List Char) × Bool × Bool × Bool × Bool :=
  match m.message with
  | some mc =>
    match mc.content with
    | some c =>
        (mc.role, check_content_type c (s2l (r"tool_use")),
         check_content_type c (s2l (r"tool_result")),
         check_local_command c, check_interrupted c)
    | none => (none, false, false, false, false)
  | none => (none, false, false, false, false)

/-- Signal projection of a scan state. -/
def signalsOfState (st : ScanState) : Option (List Char) × Bool × Bool × Bool × Bool :=
  (st.last_role, st.has_tool_use, st.has_tool_result,
   st.is_local_command, st.is_interrupted)

/-! ## Session entity (session.rs:46-77) and tmux location (tmux.rs:4-16) -/

/-- Embedding of `TmuxLocation` (tmux.rs:4-10). -/
structure TmuxLocation where
  session : List Char
  window_index : Nat
  window_name : List Char
deriving DecidableEq, Repr

/-- Display form of a tmux location (tmux.rs:12-16). -/
def tmuxTargetString (l : TmuxLocation) : List Char :=
  l.session ++ ':' :: (Nat.repr l.window_index).data

/-- Embedding of `Session` (session.rs:46-77): CPU usage is kept abstract
as a `Nat` (it is carried, never branched on). -/
structure Session where
  id : List Char
  project_name : List Char
  project_path : List Char
  status : SessionStatus
  last_message : Option (List Char)
  tmux_location : Option TmuxLocation
  tmux_target : Option (List Char)
  cpu_usage : Nat
  last_activity_secs : Nat
  pid : Option Nat
  is_running : Bool
  first_prompt : Option (List Char)
  message_count : Option Nat
  created_at : Option (List Char)
  jsonl_path : Option (List Char)
deriving DecidableEq, Repr

/-- Path segments as produced by Rust `path.split(the separator)`. -/
def pathSegments (p : List Char) : List (List Char) :=
  (splitSl p).1 :: (splitSl p).2

/-- Project-name extraction (session.rs:236-241 and 390-395):
`split('/').filter(non-empty).last().unwrap_or("Unknown")`. -/
def last_segment (p : List Char) : List Char :=
  ((pathSegments p).filter (fun s => !s.isEmpty)).getLastD (s2l (r"Unknown"))

/-! ## Running-session resolution (`parse_project_session`, session.rs:292-425) -/

/-- One log file of a project directory, modelled at the filesystem
interface: its file name, its modification time (monotone `Nat` stamp used
only for ordering), the two recency observations the source derives from
`SystemTime` (the `< 3.0s` f32 comparison and the whole-second age cast),
and the serde parse results of the last-100-line tail that
`read_last_lines` returns for it. -/
structure JFile where
  name : List Char
  mtime : Nat
  recently_modified : Bool
  age_secs : Nat
  lines : List (Option JsonlMessage)
deriving DecidableEq, Repr

/-- Helper for `fileExtension`: remember the characters after the most
recent dot. -/
def extAux : List Char → Option (List Char) → Option (List Char)
  | [], acc => acc
  | c :: cs, acc => if c = '.' then extAux cs (some cs) else extAux cs acc

/-- Model of Rust `Path::extension` on a bare file name: the part after the
last dot, where a single leading dot (hidden file) starts the stem and is
not an extension separator. -/
def fileExtension (name : List Char) : Option (List Char) :=
  match name with
  | [] => none
  | c :: rest => if c = '.' then extAux rest none else extAux (c :: rest) none

/-- Eligibility filter of `parse_project_session` (session.rs:301-308):
extension `jsonl` and name not starting with `agent-`. -/
def eligibleJsonl (f : JFile) : Bool :=
  fileExtension f.name == some (s2l (r"jsonl"))
  && !((s2l (r"agent-")).isPrefixOf f.name)

/-- Stable sort by modification time descending (session.rs:315).  Rust's
`sort_by` is a stable sort, so any stable sort with the same comparator
produces the same list; insertion sort is used here. -/
def sortFilesByMtimeDesc (files : List JFile) : List JFile :=
  List.insertionSort (fun a b => b.mtime ≤ a.mtime) files

/-- Embedding of `parse_project_session` (session.rs:292-425).  The
directory listing arrives as `dirFiles`; file-system reads cannot fail in
the model (the source's early-return `None`s on I/O errors have no
counterpart), while the `None` returns on a missing rank or a missing
session id are modelled exactly. -/
def parse_project_session (dirFiles : List JFile) (project_path : List Char)
    (tmux_location : Option TmuxLocation) (cpu_usage : Nat)
    (jsonl_index : Nat) (pid : Nat) : Option Session :=
  let jsonl_files := dirFiles.filter eligibleJsonl
  let sorted := sortFilesByMtimeDesc jsonl_files
  match sorted.get? jsonl_index with
  | none => none
  | some f =>
    let st := scanLines f.lines
    match st.session_id with
    | none => none
    | some sid =>
      let status := determine_status st.last_role st.has_tool_use
        st.has_tool_result st.is_local_command st.is_interrupted
        f.recently_modified
      some {
        id := sid
        project_name := last_segment project_path
        project_path := project_path
        status := status
        last_message := st.last_message.map truncate_message
        tmux_location := tmux_location
        tmux_target := tmux_location.map tmuxTargetString
        cpu_usage := cpu_usage
        last_activity_secs := f.age_secs
        pid := some pid
        is_running := true
        first_prompt := none
        message_count := none
        created_at := none
        jsonl_path := none }

/-! ## Session resolver (`get_sessions`, session.rs:119-189) -/

/-- Embedding of `ClaudeProcess` (process.rs:12-16), supplied by the
external process source. -/
structure ClaudeProcess where
  pid : Nat
  cwd : Option (List Char)
  cpu_usage : Nat
deriving DecidableEq, Repr

/-- One subdirectory of the log-store root: its directory name and its
files. -/
structure ProjDir where
  dir_name : List Char
  files : List JFile
deriving DecidableEq, Repr

/-- The per-process loop of `get_sessions` (session.rs:155-181): skip
processes without a working directory or without a matching log directory,
give each matched process the current per-directory counter value as its
rank, bump the counter, and collect the sessions `parse_project_session`
yields.  `tmuxOf` models the `get_shell_pid` + pane-map lookup chain
(external). -/
def sessionsLoop (project_dirs : List ProjDir)
    (tmuxOf : Nat → Option TmuxLocation) :
    List ClaudeProcess → (List Char → Nat) → List Session
  | [], _ => []
  | p :: ps, counts =>
    match p.cwd with
    | none => sessionsLoop project_dirs tmuxOf ps counts
    | some cwd =>
      let dir_name := convert_path_to_dir_name cwd
      match project_dirs.find? (fun d => d.dir_name == dir_name) with
      | none => sessionsLoop project_dirs tmuxOf ps counts
      | some dir =>
        let jsonl_index := counts dir_name
        let counts' := fun d => if d = dir_name then jsonl_index + 1 else counts d
        match parse_project_session dir.files cwd (tmuxOf p.pid)
            p.cpu_usage jsonl_index p.pid with
        | some s => s :: sessionsLoop project_dirs tmuxOf ps counts'
        | none => sessionsLoop project_dirs tmuxOf ps counts'

/-- Bool lexicographic order on char lists, modelling Rust `String` `Ord`. -/
def strLeB : List Char → List Char → Bool
  | [], _ => true
  | _ :: _, [] => false
  | a :: as, b :: bs => if a = b then strLeB as bs else decide (a < b)

/-- Order on `Option String` as Rust derives it: `None` sorts before
`Some`. -/
def optStrLeB : Option (List Char) → Option (List Char) → Bool
  | none, _ => true
  | some _, none => false
  | some a, some b => strLeB a b

/-- Embedding of `get_sessions` (session.rs:119-189): sort processes by pid
descending (stable), run the matching loop with all per-directory counters
at zero, and sort the resulting sessions by tmux target (stable). -/
def get_sessions (processes : List ClaudeProcess)
    (tmuxOf : Nat → Option TmuxLocation)
    (project_dirs : List ProjDir) : List Session :=
  let sorted := List.insertionSort (fun a b => b.pid ≤ a.pid) processes
  let sessions := sessionsLoop project_dirs tmuxOf sorted (fun _ => 0)
  List.insertionSort (fun a b => optStrLeB a.tmux_target b.tmux_target = true) sessions

/-- Match-and-rank trace of `sessionsLoop`: the matched processes together
with their working directory, matched log directory and assigned rank, in
iteration order.  Used to state the ranking properties. -/
def withRanks (project_dirs : List ProjDir) :
    List ClaudeProcess → (List Char → Nat) →
    List (ClaudeProcess × List Char × ProjDir × Nat)
  | [], _ => []
  | p :: ps, counts =>
    match p.cwd with
    | none => withRanks project_dirs ps counts
    | some cwd =>
      let dir_name := convert_path_to_dir_name cwd
      match project_dirs.find? (fun d => d.dir_name == dir_name) with
      | none => withRanks project_dirs ps counts
      | some dir =>
        let idx := counts dir_name
        (p, cwd, dir, idx) ::
          withRanks project_dirs ps
            (fun d => if d = dir_name then idx + 1 else counts d)

/-! ## Historical merge (`get_all_sessions`, session.rs:192-277) -/

/-- Embedding of `SessionIndexEntry` (session.rs:80-92).  The `modified`
RFC3339 string is represented by its chrono parse result (nanosecond
timestamp on success), the only view `parse_iso_age` takes of it. -/
structure SessionIndexEntry where
  session_id : List Char
  full_path : List Char
  first_prompt : Option (List Char)
  message_count : Nat
  created : List Char
  modified : Option Int
  project_path : List Char
  is_sidechain : Bool
deriving DecidableEq, Repr

def HISTORY_LIMIT : Nat := 20

/-- Construction of one historical `Session` from an index entry
(session.rs:243-259). -/
def mkHistoricalSession (now : Int) (e : SessionIndexEntry) : Session :=
  { id := e.session_id
    project_name := last_segment e.project_path
    project_path := e.project_path
    status := .idle
    last_message := e.first_prompt
    tmux_location := none
    tmux_target := none
    cpu_usage := 0
    last_activity_secs := parse_iso_age e.modified now
    pid := none
    is_running := false
    first_prompt := e.first_prompt
    message_count := some e.message_count
    created_at := some e.created
    jsonl_path := some e.full_path }

/-- Embedding of `get_all_sessions` (session.rs:192-277): the running list
comes from `get_sessions` (here an explicit input), `entries` is the
concatenation of all parsed `sessions-index.json` entries in directory
order; sidechains and entries whose id is already running are dropped, the
rest are age-sorted ascending (stable), capped at `HISTORY_LIMIT` and
appended after the running sessions. -/
def get_all_sessions (running : List Session) (now : Int)
    (entries : List SessionIndexEntry) : List Session :=
  let running_ids := running.map (fun s => s.id)
  let historical := entries.filterMap (fun e =>
    if e.is_sidechain || running_ids.contains e.session_id then none
    else some (mkHistoricalSession now e))
  let sorted := List.insertionSort
    (fun a b => a.last_activity_secs ≤ b.last_activity_secs) historical
  running ++ sorted.take HISTORY_LIMIT

/-- The eligible historical sessions: index entries that are not sidechains
and whose id is not already running, mapped to Sessions (the filter body of
session.rs:226-260). -/
def eligibleHistorical (running : List Session) (now : Int)
    (entries : List SessionIndexEntry) : List Session :=
  entries.filterMap (fun e =>
    if e.is_sidechain || (running.map (fun s => s.id)).contains e.session_id
    then none else some (mkHistoricalSession now e))

/-- The age-sorted historical sessions (session.rs:267). -/
def sortedHistorical (running : List Session) (now : Int)
    (entries : List SessionIndexEntry) : List Session :=
  List.insertionSort
    (fun a b => a.last_activity_secs ≤ b.last_activity_secs)
    (eligibleHistorical running now entries)

/-! ## Tail reader (`read_last_lines`, session.rs:427-489) -/

/-- Unicode replacement character emitted by lossy decoding. -/
def replChar : Char := Char.ofNat 0xFFFD

/-- Continuation byte test (10xxxxxx). -/
def utf8Cont (b : Nat) : Bool := decide (0x80 ≤ b ∧ b ≤ 0xBF)

/-- Admissible second byte of a three-byte sequence, given its lead. -/
def utf8Cont3 (b b1 : Nat) : Bool :=
  if b = 0xE0 then decide (0xA0 ≤ b1 ∧ b1 ≤ 0xBF)
  else if b = 0xED then decide (0x80 ≤ b1 ∧ b1 ≤ 0x9F)
  else utf8Cont b1

/-- Admissible second byte of a four-byte sequence, given its lead. -/
def utf8Cont4 (b b1 : Nat) : Bool :=
  if b = 0xF0 then decide (0x90 ≤ b1 ∧ b1 ≤ 0xBF)
  else if b = 0xF4 then decide (0x80 ≤ b1 ∧ b1 ≤ 0x8F)
  else utf8Cont b1

/-- Model of Rust `String::from_utf8_lossy`: decode UTF-8, replacing each
maximal invalid subpart with one replacement character (WHATWG
substitution, which Rust implements). -/
def utf8Lossy : List Nat → List Char
  | [] => []
  | b :: bs =>
    if b < 0x80 then Char.ofNat b :: utf8Lossy bs
    else if 0xC2 ≤ b ∧ b ≤ 0xDF then
      match bs with
      | [] => [replChar]
      | b1 :: rest =>
        if utf8Cont b1 then
          Char.ofNat ((b - 0xC0) * 64 + (b1 - 0x80)) :: utf8Lossy rest
        else replChar :: utf8Lossy (b1 :: rest)
    else if 0xE0 ≤ b ∧ b ≤ 0xEF then
      match bs with
      | [] => [replChar]
      | b1 :: rest =>
        if utf8Cont3 b b1 then
          match rest with
          | [] => [replChar]
          | b2 :: rest2 =>
            if utf8Cont b2 then
              Char.ofNat ((b - 0xE0) * 4096 + (b1 - 0x80) * 64 + (b2 - 0x80))
                :: utf8Lossy rest2
            else replChar :: utf8Lossy (b2 :: rest2)
        else replChar :: utf8Lossy (b1 :: rest)
    else if 0xF0 ≤ b ∧ b ≤ 0xF4 then
      match bs with
      | [] => [replChar]
      | b1 :: rest =>
        if utf8Cont4 b b1 then
          match rest with
          | [] => [replChar]
          | b2 :: rest2 =>
            if utf8Cont b2 then
              match rest2 with
              | [] => [replChar]
              | b3 :: rest3 =>
                if utf8Cont b3 then
                  Char.ofNat ((b - 0xF0) * 262144 + (b1 - 0x80) * 4096
                      + (b2 - 0x80) * 64 + (b3 - 0x80)) :: utf8Lossy rest3
                else replChar :: utf8Lossy (b3 :: rest3)
            else replChar :: utf8Lossy (b2 :: rest2)
        else replChar :: utf8Lossy (b1 :: rest)
    else replChar :: utf8Lossy bs

/-- Model of strict UTF-8 validation and decoding (Rust `String::from_utf8`
as used by `BufRead::read_line`): `none` on any invalid sequence. -/
def utf8Decode : List Nat → Option (List Char)
  | [] => some []
  | b :: bs =>
    if b < 0x80 then (utf8Decode bs).map (Char.ofNat b :: ·)
    else if 0xC2 ≤ b ∧ b ≤ 0xDF then
      match bs with
      | [] => none
      | b1 :: rest =>
        if utf8Cont b1 then
          (utf8Decode rest).map (Char.ofNat ((b - 0xC0) * 64 + (b1 - 0x80)) :: ·)
        else none
    else if 0xE0 ≤ b ∧ b ≤ 0xEF then
      match bs with
      | [] => none
      | b1 :: rest =>
        if utf8Cont3 b b1 then
          match rest with
          | [] => none
          | b2 :: rest2 =>
            if utf8Cont b2 then
              (utf8Decode rest2).map
                (Char.ofNat ((b - 0xE0) * 4096 + (b1 - 0x80) * 64 + (b2 - 0x80)) :: ·)
            else none
        else none
    else if 0xF0 ≤ b ∧ b ≤ 0xF4 then
      match bs with
      | [] => none
      | b1 :: rest =>
        if utf8Cont4 b b1 then
          match rest with
          | [] => none
          | b2 :: rest2 =>
            if utf8Cont b2 then
              match rest2 with
              | [] => none
              | b3 :: rest3 =>
                if utf8Cont b3 then
                  (utf8Decode rest3).map
                    (Char.ofNat ((b - 0xF0) * 262144 + (b1 - 0x80) * 4096
                        + (b2 - 0x80) * 64 + (b3 - 0x80)) :: ·)
                else none
            else none
        else none
    else none

/-- Split a byte stream into lines as `BufRead::read_until(the newline byte)`
does: each piece keeps its terminating newline byte, the final piece (if
non-empty) has none. -/
def byteLinesAux : List Nat → List Nat → List (List Nat)
  | acc, [] => if acc.isEmpty then [] else [acc.reverse]
  | acc, b :: bs =>
    if b = 10 then (acc.reverse ++ [10]) :: byteLinesAux [] bs
    else byteLinesAux (b :: acc) bs

def byteLines (bs : List Nat) : List (List Nat) := byteLinesAux [] bs

/-- Strip one trailing newline and then one trailing carriage return, as the
`Lines` iterator of `BufRead::lines` does on each decoded line. -/
def stripNewline (l : List Char) : List Char :=
  match l.getLast? with
  | some c =>
      if c = '\n' then
        let l2 := l.dropLast
        if l2.getLast? = some '\r' then l2.dropLast else l2
      else l
  | none => l

/-- Lines produced by the small-file path (session.rs:438-442):
`BufReader::lines().flatten()` — each byte line is strictly UTF-8 decoded
and stripped; lines that fail to decode are dropped by `flatten`. -/
def smallLines (bs : List Nat) : List (List Char) :=
  (byteLines bs).filterMap (fun lb => (utf8Decode lb).map stripNewline)

/-- Strip one trailing carriage return (the per-line `\r` handling of Rust
`str::lines`). -/
def stripCr (l : List Char) : List Char :=
  if l.getLast? = some '\r' then l.dropLast else l

/-- Model of Rust `str::lines`: split at newline characters, strip a
carriage return preceding each newline, no trailing empty line for a final
newline, and keep a final piece without terminator unstripped. -/
def rlinesAux : List Char → List Char → List (List Char)
  | acc, [] => if acc.isEmpty then [] else [acc.reverse]
  | acc, c :: cs =>
    if c = '\n' then stripCr acc.reverse :: rlinesAux [] cs
    else rlinesAux (c :: acc) cs

def rlines (s : List Char) : List (List Char) := rlinesAux [] s

/-- The inner `for line in chunk_lines.into_iter().rev()` push loop
(session.rs:473-478): push lines until `n` are accumulated. -/
def pushRevAux : List (List Char) → List (List Char) → Nat → List (List Char)
  | [], acc, _ => acc
  | l :: ls, acc, n =>
    let acc2 := acc ++ [l]
    if n ≤ acc2.length then acc2 else pushRevAux ls acc2 n

def pushRev (chunk_lines : List (List Char)) (acc : List (List Char))
    (n : Nat) : List (List Char) :=
  pushRevAux chunk_lines.reverse acc n

def CHUNK_SIZE : Nat := 32 * 1024

def SMALL_FILE_LIMIT : Nat := 64 * 1024

/-- The backward chunk loop of `read_last_lines` (session.rs:452-479),
returning the accumulated lines (in reverse order) and the remainder.  The
`fuel` argument only bounds the recursion; called with
`fuel = pos / CHUNK_SIZE + 1` it never runs out, because every iteration
either consumes a full chunk of `pos` or (on the final partial chunk)
drives `pos` to zero, so at most `pos / CHUNK_SIZE + 1` iterations run. -/
def chunkLoop (bs : List Nat) (n : Nat) :
    Nat → Nat → List (List Char) → List Char → List (List Char) × List Char
  | 0, _, acc, rem => (acc, rem)
  | fuel + 1, pos, acc, rem =>
    if acc.length < n ∧ 0 < pos then
      let read_size := min CHUNK_SIZE pos
      let pos2 := pos - read_size
      let buffer := (bs.drop pos2).take read_size
      let chunk := utf8Lossy buffer
      let combined := chunk ++ rem
      let chunk_lines := rlines combined
      let pr := if 0 < pos2 ∧ chunk_lines ≠ []
        then (chunk_lines.tail, chunk_lines.headD [])
        else (chunk_lines, ([] : List Char))
      chunkLoop bs n fuel pos2 (pushRev pr.1 acc n) pr.2
    else (acc, rem)

/-- Embedding of `read_last_lines` (session.rs:427-489).  The file is its
byte list; `File::open`/metadata/seek/read failures have no counterpart in
the model (the source's `?` early returns on them), while every other path
is modelled exactly: empty file, whole-file read below 64 KiB with strict
per-line decoding, and the backward 32 KiB chunk loop with lossy decoding,
remainder carrying and final reversal. -/
def read_last_lines (bs : List Nat) (n : Nat) : Option (List (List Char)) :=
  let file_size := bs.length
  if file_size = 0 then some []
  else if file_size < SMALL_FILE_LIMIT then
    let lines := smallLines bs
    some (lines.drop (lines.length - n))
  else
    let res := chunkLoop bs n (file_size / CHUNK_SIZE + 1) file_size [] []
    let lines := if res.2 ≠ [] ∧ res.1.length < n
      then res.1 ++ [res.2] else res.1
    some lines.reverse

/-! ## Concrete inputs used by counterexamples and witnesses -/

/-- Record with a present-but-empty session id, non-empty content carrying
a tool-use item, and no role. -/
def c4rec1 : JsonlMessage :=
  { session_id := some []
    msg_type := none
    message := some { role := none
                      content := some (.arr [⟨some (s2l (r"tool_use")), none⟩]) } }

/-- Record with a non-empty session id, a user role and plain text. -/
def c4rec2 : JsonlMessage :=
  { session_id := some (s2l (r"s1"))
    msg_type := none
    message := some { role := some (s2l (r"user"))
                      content := some (.str (s2l (r"hi"))) } }

/-- Chronological tail: `c4rec1` is the most recent line. -/
def c4lines : List (Option JsonlMessage) := [some c4rec2, some c4rec1]

/-- Index entry used by the C3 counterexample. -/
def c3entry : SessionIndexEntry :=
  { session_id := ['x']
    full_path := s2l (r"/logs/x.jsonl")
    first_prompt := none
    message_count := 1
    created := []
    modified := some 0
    project_path := s2l (r"/p")
    is_sidechain := false }

/-- Index entry used by the C3 witness. -/
def c3entryB : SessionIndexEntry :=
  { session_id := ['y']
    full_path := s2l (r"/logs/y.jsonl")
    first_prompt := none
    message_count := 2
    created := []
    modified := none
    project_path := s2l (r"/q")
    is_sidechain := false }

/-- Log file whose tail holds a single record with a session id. -/
def c6file : JFile :=
  { name := s2l (r"a.jsonl")
    mtime := 0
    recently_modified := false
    age_secs := 0
    lines := [some { session_id := some ['x'], msg_type := none, message := none }] }

/-- The session `parse_project_session` produces from `c6file`. -/
def c6session : Session :=
  { id := ['x']
    project_name := ['p']
    project_path := s2l (r"/p")
    status := .idle
    last_message := none
    tmux_location := none
    tmux_target := none
    cpu_usage := 0
    last_activity_secs := 0
    pid := some 7
    is_running := true
    first_prompt := none
    message_count := none
    created_at := none
    jsonl_path := none }

/-- Jsonl file whose single record carries the given session id. -/
def mkIdFile (name : List Char) (mtime : Nat) (sid : List Char) : JFile :=
  { name := name
    mtime := mtime
    recently_modified := false
    age_secs := 1
    lines := [some { session_id := some sid, msg_type := none, message := none }] }

/-- Three eligible files of distinct recency for the ranking scenario. -/
def c5dir : ProjDir :=
  { dir_name := convert_path_to_dir_name (s2l (r"/w"))
    files := [mkIdFile (s2l (r"s2.jsonl")) 10 (s2l (r"s2")),
              mkIdFile (s2l (r"s0.jsonl")) 30 (s2l (r"s0")),
              mkIdFile (s2l (r"s1.jsonl")) 20 (s2l (r"s1"))] }

/-- Three processes sharing the working directory, pids 300, 100, 200. -/
def c5procs : List ClaudeProcess :=
  [{ pid := 300, cwd := some (s2l (r"/w")), cpu_usage := 0 },
   { pid := 100, cwd := some (s2l (r"/w")), cpu_usage := 0 },
   { pid := 200, cwd := some (s2l (r"/w")), cpu_usage := 0 }]

/-- A 64 KiB file whose two 32 KiB chunks meet exactly at the newline pair
terminating an empty line: `a`×32767, newline, newline, `b`×32767. -/
def fileC1 : List Nat :=
  (List.replicate 32767 97 ++ [10]) ++ (10 :: List.replicate 32767 98)

/-- A 64 KiB file with a two-byte UTF-8 character split across the chunk
boundary: `x`×32766, newline, 0xC3 | 0xA9, newline, `y`×32766. -/
def fileC8big : List Nat :=
  (List.replicate 32766 120 ++ [10, 0xC3]) ++ (0xA9 :: 10 :: List.replicate 32766 121)

/-- A small file whose middle line contains an invalid byte:
`ok`, newline, 0xFF, newline, `bye`. -/
def fileC8small : List Nat := [111, 107, 10, 0xFF, 10, 98, 121, 101]

/-! # Theorems -/

/-! ## Codec equivalence (C7) -/

theorem encodeLoop_slash_dot (rest : List Char) :
    encodeLoop ('/' :: '.' :: rest) = '-' :: '-' :: encodeLoop rest := by
  simp [encodeLoop]

theorem encodeLoop_slash_cons (d : Char) (rest : List Char) (hd : d ≠ '.') :
    encodeLoop ('/' :: d :: rest) = '-' :: encodeLoop (d :: rest) := by
  simp [encodeLoop, hd]

theorem encodeLoop_cons (c : Char) (rest : List Char) (hc : c ≠ '/') :
    encodeLoop (c :: rest) = c :: encodeLoop rest := by
  rw [encodeLoop.eq_def]
  simp [hc]

theorem splitSl_slash (rest : List Char) :
    splitSl ('/' :: rest) = ([], (splitSl rest).1 :: (splitSl rest).2) := by
  simp [splitSl]

theorem splitSl_cons (c : Char) (rest : List Char) (hc : c ≠ '/') :
    splitSl (c :: rest) = (c :: (splitSl rest).1, (splitSl rest).2) := by
  simp [splitSl, hc]

theorem encodeLoop_eq_spec (s : List Char) :
    encodeLoop s = (splitSl s).1 ++ joinRest (splitSl s).2 := by
  induction s using encodeLoop.induct with
  | case1 => simp [encodeLoop, splitSl, joinRest]
  | case2 => simp [encodeLoop, splitSl, joinRest, segPart]
  | case3 rest' ih =>
      rw [encodeLoop_slash_dot, splitSl_slash,
        splitSl_cons '.' rest' (by decide)]
      simp [joinRest, segPart, ih]
  | case4 d rest' hd ih =>
      rw [encodeLoop_slash_cons d rest' hd, splitSl_slash, ih]
      by_cases hds : d = '/'
      · subst hds
        rw [splitSl_slash]
        simp [joinRest, segPart]
      · rw [splitSl_cons d rest' hds]
        simp only [joinRest, segPart, List.head?, List.tail, List.nil_append]
        rw [if_neg (by simpa using hd)]
        simp
  | case5 d rest' hd ih =>
      rw [encodeLoop_cons d rest' hd, splitSl_cons d rest' hd, ih]
      simp

/-- C7: for every path, `convert_path_to_dir_name` agrees with the spec's
segment-wise description (strip the leading separator, `-` per boundary,
`--` swallowing a hidden segment's dot, global `-` prefix), and the two
documented examples encode as stated. -/
theorem c7_path_encoding :
    (∀ p : List Char, convert_path_to_dir_name p = specEncode p)
    ∧ convert_path_to_dir_name (s2l (r"/Users/me/Projects/foo"))
        = s2l (r"-Users-me-Projects-foo")
    ∧ convert_path_to_dir_name (s2l (r"/Users/me/Projects/.hidden/foo"))
        = s2l (r"-Users-me-Projects--hidden-foo") := by
  refine ⟨?_, by decide, by decide⟩
  intro p
  unfold convert_path_to_dir_name specEncode
  rw [encodeLoop_eq_spec]

/-! ## Classifier table (C2) -/

/-- C2: `determine_status` is total by construction and agrees with the
decision table of spec §4.4 (as transcribed by `classifySpec`) on every
combination of role and boolean signals; in particular the assistant arm's
`has_tool_use` split yields identical outcomes on both sides. -/
theorem c2_classifier_table :
    ∀ (role : Option (List Char)) (htu htr lc ii rm : Bool),
      determine_status role htu htr lc ii rm = classifySpec role htu htr lc ii rm := by
  intro role htu htr lc ii rm
  unfold determine_status classifySpec
  by_cases h1 : role = some (s2l (r"assistant")) <;>
    by_cases h2 : role = some (s2l (r"user")) <;>
      cases htu <;> cases htr <;> cases lc <;> cases ii <;> cases rm <;>
        simp [h1, h2]

/-! ## Preview truncation (C9) -/

/-- C9: the stored preview equals the message when it has at most 100
characters, equals its first 100 characters followed by the ellipsis marker
otherwise, and the ellipsis form occurs exactly when truncation occurred. -/
theorem c9_preview_truncation :
    ∀ m : List Char,
      (m.length ≤ 100 → truncate_message m = m)
      ∧ (100 < m.length →
          truncate_message m = m.take 100 ++ ellipsisMarker)
      ∧ (truncate_message m = m.take 100 ++ ellipsisMarker ↔ 100 < m.length) := by
  intro m
  refine ⟨?_, ?_, ?_, ?_⟩
  · intro h
    unfold truncate_message MESSAGE_TRUNCATE_LEN
    rw [if_neg (by omega)]
  · intro h
    unfold truncate_message MESSAGE_TRUNCATE_LEN
    rw [if_pos (by omega)]
  · intro heq
    by_contra hle
    push_neg at hle
    unfold truncate_message MESSAGE_TRUNCATE_LEN at heq
    rw [if_neg (by omega)] at heq
    have hlen := congrArg List.length heq
    simp [List.length_take, ellipsisMarker] at hlen
    omega
  · intro h
    unfold truncate_message MESSAGE_TRUNCATE_LEN
    rw [if_pos (by omega)]

/-- Witness for C9 at a concrete 101-character message. -/
theorem c9_preview_truncation_witness :
    100 < (List.replicate 101 'a').length
    ∧ truncate_message (List.replicate 101 'a')
        = (List.replicate 101 'a').take 100 ++ ellipsisMarker := by
  refine ⟨by simp, (c9_preview_truncation (List.replicate 101 'a')).2.1 (by simp)⟩

/-! ## Age clamp (C10) -/

/-- C10: a parsed timestamp at or after the current instant yields age
exactly 0 (the age is clamped at zero, never negative), and an unparsable
timestamp yields the sentinel 999999. -/
theorem c10_age_clamp :
    (∀ dt now : Int, now ≤ dt → parse_iso_age (some dt) now = 0)
    ∧ (∀ now : Int, parse_iso_age none now = 999999) := by
  constructor
  · intro dt now h
    show (max (durationNumSeconds (now - dt)) 0).toNat = 0
    unfold durationNumSeconds
    have htd : (now - dt).tdiv 1000000000 ≤ 0 := by
      have hneg : now - dt = -(dt - now) := by ring
      rw [hneg, Int.neg_tdiv]
      have hnn : 0 ≤ (dt - now).tdiv 1000000000 :=
        Int.tdiv_nonneg (by omega) (by norm_num)
      omega
    rw [max_eq_right htd]
    rfl
  · intro now
    rfl

/-- Witness for C10 at a concrete future timestamp. -/
theorem c10_age_clamp_witness :
    ((3 : Int) ≤ 5 ∧ parse_iso_age (some 5) 3 = 0) ∧ parse_iso_age none 0 = 999999 :=
  ⟨⟨by norm_num, c10_age_clamp.1 5 3 (by norm_num)⟩, c10_age_clamp.2 0⟩

/-! ## Tail-scan extraction (C4) -/

theorem scanStep_sid (st : ScanState) (m : JsonlMessage) :
    (scanStep st m).session_id
      = if st.session_id.isNone then m.session_id else st.session_id := by
  obtain ⟨msid, mtype, mmsg⟩ := m
  unfold scanStep
  cases hn : st.session_id.isNone <;>
    cases mmsg with
    | none => simp [hn]
    | some mc =>
        obtain ⟨mrole, mcontent⟩ := mc
        cases mcontent with
        | none => simp [hn]
        | some c =>
            by_cases hc : msgHasContent c = true <;>
              simp [hn, hc] <;> split <;> simp_all <;> split <;> simp_all

theorem scanStep_msgtext (st : ScanState) (m : JsonlMessage) :
    (scanStep st m).last_message
      = if st.last_message.isNone then msgText m else st.last_message := by
  obtain ⟨ssid, srole, shtu, shtr, slm, slc, sii⟩ := st
  obtain ⟨msid, mtype, mmsg⟩ := m
  cases mmsg with
  | none => cases ssid <;> cases slm <;> simp [scanStep, msgText, msgContent]
  | some mc =>
      obtain ⟨mrole, mcontent⟩ := mc
      cases mcontent with
      | none => cases ssid <;> cases slm <;> simp [scanStep, msgText, msgContent]
      | some c =>
          by_cases hc : msgHasContent c = true <;>
            cases ssid <;> cases srole <;> cases slm <;>
              simp [scanStep, msgText, msgContent, hc]

theorem scanStep_signals_some (st : ScanState) (m : JsonlMessage)
    (h : st.last_role.isSome = true) :
    signalsOfState (scanStep st m) = signalsOfState st := by
  obtain ⟨ssid, srole, shtu, shtr, slm, slc, sii⟩ := st
  obtain ⟨msid, mtype, mmsg⟩ := m
  cases srole with
  | none => simp at h
  | some rv =>
      cases mmsg with
      | none => cases ssid <;> cases slm <;> simp [scanStep, signalsOfState]
      | some mc =>
          obtain ⟨mrole, mcontent⟩ := mc
          cases mcontent with
          | none => cases ssid <;> cases slm <;> simp [scanStep, signalsOfState]
          | some c =>
              by_cases hc : msgHasContent c = true <;>
                cases ssid <;> cases slm <;>
                  simp [scanStep, signalsOfState, hc]

theorem scanStep_role (st : ScanState) (m : JsonlMessage)
    (h : st.last_role = none) :
    signalsOfState (scanStep st m)
      = if msgContentful m then signalsOf m else signalsOfState st := by
  obtain ⟨ssid, srole, shtu, shtr, slm, slc, sii⟩ := st
  obtain ⟨msid, mtype, mmsg⟩ := m
  subst h
  cases mmsg with
  | none =>
      cases ssid <;> cases slm <;>
        simp [scanStep, signalsOfState, signalsOf, msgContentful, msgContent]
  | some mc =>
      obtain ⟨mrole, mcontent⟩ := mc
      cases mcontent with
      | none =>
          cases ssid <;> cases slm <;>
            simp [scanStep, signalsOfState, signalsOf, msgContentful, msgContent]
      | some c =>
          by_cases hc : msgHasContent c = true <;>
            cases ssid <;> cases slm <;>
              simp [scanStep, signalsOfState, signalsOf, msgContentful,
                msgContent, hc]

theorem scanAllFound_sid (st : ScanState) (h : scanAllFound st = true) :
    st.session_id.isSome = true := by
  unfold scanAllFound at h
  simp only [Bool.and_eq_true] at h
  exact h.1.1

theorem scanAllFound_role (st : ScanState) (h : scanAllFound st = true) :
    st.last_role.isSome = true := by
  unfold scanAllFound at h
  simp only [Bool.and_eq_true] at h
  exact h.1.2

theorem scanAllFound_msg (st : ScanState) (h : scanAllFound st = true) :
    st.last_message.isSome = true := by
  unfold scanAllFound at h
  simp only [Bool.and_eq_true] at h
  exact h.2

theorem scanLoop_sid (ls : List (Option JsonlMessage)) :
    ∀ st : ScanState, (scanLoop st ls).session_id
      = st.session_id.or ((ls.filterMap id).findSome? (fun m => m.session_id)) := by
  induction ls with
  | nil =>
      intro st
      cases h : st.session_id <;> simp [scanLoop, h]
  | cons l ls ih =>
      intro st
      cases l with
      | none => simpa [scanLoop, List.filterMap_cons] using ih st
      | some m =>
          simp only [scanLoop, List.filterMap_cons, id_eq, List.findSome?_cons]
          by_cases hb : scanAllFound (scanStep st m) = true
          · rw [if_pos hb, scanStep_sid]
            cases hst : st.session_id with
            | some x => simp [hst, Option.or_some]
            | none =>
                have := scanAllFound_sid _ hb
                rw [scanStep_sid, hst] at this
                simp only [hst, Option.isNone_none, if_true, Option.none_or] at this ⊢
                cases hm : m.session_id with
                | none => rw [hm] at this; simp at this
                | some y => simp [hm]
          · rw [if_neg hb, ih, scanStep_sid]
            cases hst : st.session_id with
            | some x => simp
            | none =>
                cases hm : m.session_id with
                | none => simp
                | some y => simp

theorem scanLoop_msg (ls : List (Option JsonlMessage)) :
    ∀ st : ScanState, (scanLoop st ls).last_message
      = st.last_message.or ((ls.filterMap id).findSome? msgText) := by
  induction ls with
  | nil =>
      intro st
      cases h : st.last_message <;> simp [scanLoop, h]
  | cons l ls ih =>
      intro st
      cases l with
      | none => simpa [scanLoop, List.filterMap_cons] using ih st
      | some m =>
          simp only [scanLoop, List.filterMap_cons, id_eq, List.findSome?_cons]
          by_cases hb : scanAllFound (scanStep st m) = true
          · rw [if_pos hb, scanStep_msgtext]
            cases hst : st.last_message with
            | some x => simp [hst, Option.or_some]
            | none =>
                have := scanAllFound_msg _ hb
                rw [scanStep_msgtext, hst] at this
                simp only [hst, Option.isNone_none, if_true, Option.none_or] at this ⊢
                cases hm : msgText m with
                | none => rw [hm] at this; simp at this
                | some y => simp [hm]
          · rw [if_neg hb, ih, scanStep_msgtext]
            cases hst : st.last_message with
            | some x => simp
            | none =>
                cases hm : msgText m with
                | none => simp
                | some y => simp

theorem scanLoop_signals_some (ls : List (Option JsonlMessage)) :
    ∀ st : ScanState, st.last_role.isSome = true →
      signalsOfState (scanLoop st ls) = signalsOfState st := by
  induction ls with
  | nil => intro st _; rfl
  | cons l ls ih =>
      intro st h
      cases l with
      | none => exact ih st h
      | some m =>
          simp only [scanLoop]
          by_cases hb : scanAllFound (scanStep st m) = true
          · rw [if_pos hb]
            exact scanStep_signals_some st m h
          · rw [if_neg hb]
            have h2 : (scanStep st m).last_role.isSome = true := by
              have := scanStep_signals_some st m h
              unfold signalsOfState at this
              have hr : (scanStep st m).last_role = st.last_role :=
                congrArg Prod.fst this
              rw [hr]; exact h
            rw [ih _ h2, scanStep_signals_some st m h]

theorem scanLoop_signals (ls : List (Option JsonlMessage)) :
    ∀ (st : ScanState) (r : JsonlMessage), st.last_role = none →
      (ls.filterMap id).find? msgRoleContentful = some r →
      signalsOfState (scanLoop st ls) = signalsOf r := by
  induction ls with
  | nil => intro st r _ hf; simp at hf
  | cons l ls ih =>
      intro st r hrole hf
      cases l with
      | none =>
          simp only [List.filterMap_cons, id_eq] at hf
          exact ih st r hrole hf
      | some m =>
          simp only [List.filterMap_cons, id_eq, List.find?_cons] at hf
          simp only [scanLoop]
          by_cases hm : msgRoleContentful m = true
          · rw [hm] at hf
            simp only [Option.some.injEq] at hf
            subst hf
            have hsig : signalsOfState (scanStep st m) = signalsOf m := by
              rw [scanStep_role st m hrole]
              have hcf : msgContentful m = true := by
                unfold msgRoleContentful at hm
                unfold msgContentful msgContent
                cases hmm : m.message with
                | none => rw [hmm] at hm; simp at hm
                | some mc =>
                    rw [hmm] at hm
                    simp only [Bool.and_eq_true] at hm
                    exact hm.1
              rw [hcf]
              simp
            by_cases hb : scanAllFound (scanStep st m) = true
            · rw [if_pos hb]; exact hsig
            · rw [if_neg hb]
              have hrs : (scanStep st m).last_role.isSome = true := by
                have h1 : (scanStep st m).last_role = (signalsOf m).1 :=
                  congrArg Prod.fst hsig
                have h2 : (signalsOf m).1.isSome = true := by
                  unfold msgRoleContentful at hm
                  unfold signalsOf
                  cases hmm : m.message with
                  | none => rw [hmm] at hm; simp at hm
                  | some mc =>
                      rw [hmm] at hm
                      dsimp only at hm ⊢
                      cases hcc : mc.content with
                      | none => rw [hcc] at hm; simp at hm
                      | some c =>
                          rw [hcc] at hm
                          simp only [Bool.and_eq_true] at hm
                          simpa using hm.2
                rw [h1]; exact h2
              rw [scanLoop_signals_some ls _ hrs, hsig]
          · simp only [Bool.not_eq_true] at hm
            rw [hm] at hf
            have hrole2 : (scanStep st m).last_role = none := by
              have hstep := scanStep_role st m hrole
              by_cases hcf : msgContentful m = true
              · rw [hcf] at hstep
                simp only [if_true] at hstep
                have h1 : (scanStep st m).last_role = (signalsOf m).1 :=
                  congrArg Prod.fst hstep
                have h2 : (signalsOf m).1 = none := by
                  unfold msgRoleContentful at hm
                  unfold signalsOf
                  unfold msgContentful msgContent at hcf
                  cases hmm : m.message with
                  | none => dsimp only
                  | some mc =>
                      rw [hmm] at hm hcf
                      dsimp only at hm hcf ⊢
                      cases hcc : mc.content with
                      | none => rw [hcc] at hcf
                      | some c =>
                          rw [hcc] at hcf hm
                          dsimp only at hcf hm ⊢
                          cases hr : mc.role with
                          | none => rfl
                          | some rv =>
                              rw [hr, hcf] at hm
                              simp at hm
                rw [h1, h2]
              · simp only [Bool.not_eq_true] at hcf
                rw [hcf] at hstep
                simp only [Bool.false_eq_true, if_false] at hstep
                have h1 : (scanStep st m).last_role = st.last_role :=
                  congrArg Prod.fst hstep
                rw [h1, hrole]
            have hb : scanAllFound (scanStep st m) = false := by
              unfold scanAllFound
              rw [hrole2]
              simp
            rw [hb]
            simp only [Bool.false_eq_true, if_false]
            exact ih _ r hrole2 hf

/-- C4 (amended): the session id recorded by the tail scan is the first
present `sessionId` (which may be the empty string) among parsed records in
most-recent-first order; the role and tool/interrupt/local-command signals
come from the first parsed record with non-empty content *and a present
role* (a record with content but no role has its signals overwritten by
later records); the preview text is the first extracted text, continuing
past records with content but no text; a line that fails to parse is
skipped without affecting the scan; and the scan returns early exactly when
session id, role and text have all been found. -/
theorem c4_tail_scan :
    (∀ lines : List (Option JsonlMessage),
        (scanLines lines).session_id
          = (lines.reverse.filterMap id).findSome? (fun m => m.session_id))
    ∧ (∀ (lines : List (Option JsonlMessage)) (r : JsonlMessage),
        (lines.reverse.filterMap id).find? msgRoleContentful = some r →
          signalsOfState (scanLines lines) = signalsOf r)
    ∧ (∀ lines : List (Option JsonlMessage),
        (scanLines lines).last_message
          = (lines.reverse.filterMap id).findSome? msgText)
    ∧ (∀ (st : ScanState) (ls : List (Option JsonlMessage)),
        scanLoop st ((none : Option JsonlMessage) :: ls) = scanLoop st ls)
    ∧ (∀ (st : ScanState) (m : JsonlMessage) (ls : List (Option JsonlMessage)),
        (scanAllFound (scanStep st m) = true →
          scanLoop st (some m :: ls) = scanStep st m)
        ∧ (scanAllFound (scanStep st m) = false →
          scanLoop st (some m :: ls) = scanLoop (scanStep st m) ls)) := by
  refine ⟨?_, ?_, ?_, ?_, ?_⟩
  · intro lines
    unfold scanLines
    rw [scanLoop_sid]
    rfl
  · intro lines r hf
    exact scanLoop_signals lines.reverse initScan r rfl hf
  · intro lines
    unfold scanLines
    rw [scanLoop_msg]
    rfl
  · intro st ls
    rfl
  · intro st m ls
    constructor
    · intro h
      simp [scanLoop, h]
    · intro h
      simp [scanLoop, h]

/-- C4 counterexample: on the tail `c4lines` (most recent record first:
`c4rec1` with a present-but-empty session id, non-empty content containing
a tool-use item and no role, then `c4rec2` with session id `s1`, user role
and text) the scan records the empty session id rather than the first
non-empty one, and reports `has_tool_use = false` although the first record
with non-empty content carries a tool-use item: signals were overwritten by
the later record. -/
theorem c4_tail_scan_counterexample :
    (scanLines c4lines).session_id = some []
    ∧ (scanLines c4lines).has_tool_use = false
    ∧ (scanLines c4lines).last_role = some (s2l (r"user"))
    ∧ msgContentful c4rec1 = true
    ∧ (msgContent c4rec1).map (fun c => check_content_type c (s2l (r"tool_use")))
        = some true
    ∧ c4rec2.session_id = some (s2l (r"s1"))
    ∧ s2l (r"s1") ≠ [] := by
  refine ⟨by decide, by decide, by decide, by decide, by decide, by decide, by decide⟩

/-- Witness for C4 at the concrete tail `c4lines`: the signal clause applied
to the first parsed record with content and role. -/
theorem c4_tail_scan_witness :
    (c4lines.reverse.filterMap id).find? msgRoleContentful = some c4rec2
    ∧ signalsOfState (scanLines c4lines) = signalsOf c4rec2 :=
  ⟨by decide, c4_tail_scan.2.1 c4lines c4rec2 (by decide)⟩

/-! ## Field-presence invariant (C6) -/

/-- C6: every Session built by `parse_project_session` has
`is_running = true`, carries the process id, and has `jsonl_path`,
`first_prompt`, `message_count` and `created_at` all absent; every
historical Session has `pid` and window location absent, `is_running =
false` and status `Idle`. -/
theorem c6_field_presence :
    (∀ (dirFiles : List JFile) (pp : List Char) (tl : Option TmuxLocation)
        (cu idx pid : Nat) (s : Session),
        parse_project_session dirFiles pp tl cu idx pid = some s →
          s.is_running = true ∧ s.jsonl_path = none ∧ s.first_prompt = none
            ∧ s.message_count = none ∧ s.created_at = none ∧ s.pid = some pid)
    ∧ (∀ (now : Int) (e : SessionIndexEntry),
        (mkHistoricalSession now e).is_running = false
          ∧ (mkHistoricalSession now e).pid = none
          ∧ (mkHistoricalSession now e).tmux_location = none
          ∧ (mkHistoricalSession now e).tmux_target = none
          ∧ (mkHistoricalSession now e).status = SessionStatus.idle) := by
  constructor
  · intro dirFiles pp tl cu idx pid s h
    unfold parse_project_session at h
    dsimp only at h
    split at h
    · exact absurd h (by simp)
    · split at h
      · exact absurd h (by simp)
      · simp only [Option.some.injEq] at h
        subst h
        exact ⟨rfl, rfl, rfl, rfl, rfl, rfl⟩
  · intro now e
    exact ⟨rfl, rfl, rfl, rfl, rfl⟩

/-- Witness for C6: a concrete file yields a running session with exactly
the claimed fields absent. -/
theorem c6_field_presence_witness :
    parse_project_session [c6file] (s2l (r"/p")) none 0 0 7 = some c6session
    ∧ (c6session.is_running = true ∧ c6session.jsonl_path = none
        ∧ c6session.first_prompt = none ∧ c6session.message_count = none
        ∧ c6session.created_at = none ∧ c6session.pid = some 7) :=
  ⟨by decide,
   c6_field_presence.1 [c6file] (s2l (r"/p")) none 0 0 7 c6session (by decide)⟩

/-! ## Historical merge (C3) -/

/-- C3 counterexample: two index entries sharing a session id both survive
the merge (the filter only checks against running ids), so the merged list
can contain two sessions with the same id, refuting the claim's
no-duplicate clause. -/
theorem c3_merge_counterexample :
    ((get_all_sessions [] 0 [c3entry, c3entry]).map (fun s => s.id)
        = [['x'], ['x']])
    ∧ ¬ ((get_all_sessions [] 0 [c3entry, c3entry]).map (fun s => s.id)).Nodup := by
  refine ⟨by decide, by decide⟩

/-- C3 (amended): `get_all_sessions` appends after the running list a
historical block in which no session's id equals a running session's id
(duplicates *among* historical entries are not removed), of length at most
the cap 20, sorted by ascending age, and consisting of the smallest-age
eligible entries: every dropped eligible session is at least as old as
every kept one. -/
theorem c3_historical_merge :
    ∀ (running : List Session) (now : Int) (entries : List SessionIndexEntry),
      ∃ hist : List Session,
        get_all_sessions running now entries = running ++ hist
        ∧ (∀ s ∈ hist, s.id ∉ running.map (fun t => t.id))
        ∧ hist.length ≤ HISTORY_LIMIT
        ∧ List.Sorted (fun a b => a.last_activity_secs ≤ b.last_activity_secs) hist
        ∧ ∃ dropped : List Session,
            (hist ++ dropped).Perm (eligibleHistorical running now entries)
            ∧ ∀ s ∈ hist, ∀ t ∈ dropped,
                s.last_activity_secs ≤ t.last_activity_secs := by
  intro running now entries
  haveI htot : IsTotal Session
      (fun a b => a.last_activity_secs ≤ b.last_activity_secs) :=
    ⟨fun a b => Nat.le_total _ _⟩
  haveI htrans : IsTrans Session
      (fun a b => a.last_activity_secs ≤ b.last_activity_secs) :=
    ⟨fun a b c hab hbc => Nat.le_trans hab hbc⟩
  refine ⟨(sortedHistorical running now entries).take HISTORY_LIMIT,
    by unfold get_all_sessions sortedHistorical eligibleHistorical; rfl,
    ?_, ?_, ?_, ?_⟩
  · intro s hs hmem
    have hs2 := List.mem_of_mem_take hs
    have hs3 := (List.perm_insertionSort _ _).mem_iff.mp hs2
    obtain ⟨e, he, hfe⟩ := List.mem_filterMap.mp hs3
    by_cases hc : (e.is_sidechain
        || (running.map (fun s => s.id)).contains e.session_id) = true
    · rw [if_pos hc] at hfe
      exact absurd hfe (by simp)
    · rw [if_neg hc] at hfe
      simp only [Option.some.injEq] at hfe
      have hid : s.id = e.session_id := by rw [← hfe]; rfl
      rw [hid] at hmem
      simp only [Bool.or_eq_true, not_or] at hc
      exact hc.2 (List.elem_iff.mpr hmem)
  · calc ((sortedHistorical running now entries).take HISTORY_LIMIT).length
        = min HISTORY_LIMIT (sortedHistorical running now entries).length :=
          List.length_take _ _
    _ ≤ HISTORY_LIMIT := min_le_left _ _
  · exact List.Pairwise.sublist (List.take_sublist _ _)
      (List.sorted_insertionSort _ _)
  · refine ⟨(sortedHistorical running now entries).drop HISTORY_LIMIT, ?_, ?_⟩
    · rw [List.take_append_drop]
      exact List.perm_insertionSort _ _
    · have hsorted : List.Sorted
          (fun (a b : Session) => a.last_activity_secs ≤ b.last_activity_secs)
          (sortedHistorical running now entries) :=
        List.sorted_insertionSort _ _
      rw [← List.take_append_drop HISTORY_LIMIT
        (sortedHistorical running now entries)] at hsorted
      exact (List.pairwise_append.mp hsorted).2.2

/-- Witness for C3 at concrete inputs: the amended theorem applied to one
entry bounds the merged list's length by the cap. -/
theorem c3_historical_merge_witness :
    (get_all_sessions [] 0 [c3entryB]).length ≤ HISTORY_LIMIT := by
  obtain ⟨hist, heq, _, hlen, _⟩ := c3_historical_merge [] 0 [c3entryB]
  rw [heq]
  simpa using hlen

/-! ## Ranking (C5) -/

theorem sessionsLoop_eq_withRanks (project_dirs : List ProjDir)
    (tmuxOf : Nat → Option TmuxLocation) :
    ∀ (ps : List ClaudeProcess) (counts : List Char → Nat),
      sessionsLoop project_dirs tmuxOf ps counts
        = (withRanks project_dirs ps counts).filterMap (fun x =>
            parse_project_session x.2.2.1.files x.2.1 (tmuxOf x.1.pid)
              x.1.cpu_usage x.2.2.2 x.1.pid) := by
  intro ps
  induction ps with
  | nil => intro counts; rfl
  | cons p ps ih =>
      intro counts
      simp only [sessionsLoop, withRanks]
      cases hcwd : p.cwd with
      | none => exact ih counts
      | some cwd =>
          dsimp only
          cases hf : project_dirs.find?
              (fun d => d.dir_name == convert_path_to_dir_name cwd) with
          | none => exact ih counts
          | some dir =>
              dsimp only [List.filterMap_cons]
              cases hp : parse_project_session dir.files cwd (tmuxOf p.pid)
                  p.cpu_usage (counts (convert_path_to_dir_name cwd)) p.pid with
              | none => rw [ih]
              | some s => rw [ih]

theorem withRanks_rank (project_dirs : List ProjDir) :
    ∀ (ps : List ClaudeProcess) (counts : List Char → Nat) (i : Nat)
      (p : ClaudeProcess) (cwd : List Char) (dir : ProjDir) (idx : Nat),
      (withRanks project_dirs ps counts).get? i = some (p, cwd, dir, idx) →
        idx = counts dir.dir_name
          + ((withRanks project_dirs ps counts).take i).countP
              (fun y => y.2.2.1.dir_name == dir.dir_name) := by
  intro ps
  induction ps with
  | nil => intro counts i p cwd dir idx h; simp [withRanks] at h
  | cons q ps ih =>
      intro counts i p cwd dir idx h
      cases hcwd : q.cwd with
      | none =>
          simp only [withRanks, hcwd] at h ⊢
          exact ih counts i p cwd dir idx h
      | some qcwd =>
          simp only [withRanks, hcwd] at h ⊢
          cases hf : project_dirs.find?
              (fun d => d.dir_name == convert_path_to_dir_name qcwd) with
          | none =>
              simp only [hf] at h ⊢
              exact ih counts i p cwd dir idx h
          | some qdir =>
              have hqd : qdir.dir_name = convert_path_to_dir_name qcwd := by
                have := List.find?_some hf
                simpa using this
              simp only [hf] at h ⊢
              cases i with
              | zero =>
                  simp only [List.get?_cons_zero, Option.some.injEq,
                    Prod.mk.injEq] at h
                  obtain ⟨h1, h2, h3, h4⟩ := h
                  subst h3
                  subst h4
                  rw [hqd]
                  simp
              | succ i =>
                  simp only [List.get?_cons_succ, List.take_succ_cons,
                    List.countP_cons] at h ⊢
                  have hr := ih _ i p cwd dir idx h
                  rw [hr, hqd]
                  by_cases hd : dir.dir_name = convert_path_to_dir_name qcwd
                  · rw [if_pos hd, if_pos (beq_iff_eq.mpr hd.symm), hd]
                    omega
                  · rw [if_neg hd,
                      if_neg (fun hc => hd (beq_iff_eq.mp hc).symm)]
                    omega

theorem parse_rank_oob (files : List JFile) (pp : List Char)
    (tl : Option TmuxLocation) (cu idx pid : Nat)
    (h : (files.filter eligibleJsonl).length ≤ idx) :
    parse_project_session files pp tl cu idx pid = none := by
  unfold parse_project_session
  dsimp only
  have hlen : (sortFilesByMtimeDesc (files.filter eligibleJsonl)).length
      = (files.filter eligibleJsonl).length :=
    (List.perm_insertionSort _ _).length_eq
  have hg : (sortFilesByMtimeDesc (files.filter eligibleJsonl)).get? idx = none := by
    rw [List.get?_eq_none]
    omega
  rw [hg]

/-- C5: ranking.  (1) `sessionsLoop` equals the filterMap of
`parse_project_session` over the match-and-rank trace `withRanks`;
(2) in the trace, the rank of every matched process is the starting counter
of its directory plus the number of earlier matched processes of the same
directory — so processes sharing a working directory receive consecutive
zero-based ranks in iteration (pid-descending) order; (3) a rank not below
the number of eligible (`.jsonl`, non-`agent-`) files yields no Session;
(4) concretely, processes 300, 100, 200 sharing one directory of three
eligible files resolve, in pid-descending order, to the 1st, 2nd and 3rd
most-recently-modified files. -/
theorem c5_ranking :
    (∀ (project_dirs : List ProjDir) (tmuxOf : Nat → Option TmuxLocation)
        (ps : List ClaudeProcess) (counts : List Char → Nat),
        sessionsLoop project_dirs tmuxOf ps counts
          = (withRanks project_dirs ps counts).filterMap (fun x =>
              parse_project_session x.2.2.1.files x.2.1 (tmuxOf x.1.pid)
                x.1.cpu_usage x.2.2.2 x.1.pid))
    ∧ (∀ (project_dirs : List ProjDir) (ps : List ClaudeProcess)
        (counts : List Char → Nat) (i : Nat) (p : ClaudeProcess)
        (cwd : List Char) (dir : ProjDir) (idx : Nat),
        (withRanks project_dirs ps counts).get? i = some (p, cwd, dir, idx) →
          idx = counts dir.dir_name
            + ((withRanks project_dirs ps counts).take i).countP
                (fun y => y.2.2.1.dir_name == dir.dir_name))
    ∧ (∀ (files : List JFile) (pp : List Char) (tl : Option TmuxLocation)
        (cu idx pid : Nat),
        (files.filter eligibleJsonl).length ≤ idx →
          parse_project_session files pp tl cu idx pid = none)
    ∧ ((get_sessions c5procs (fun _ => none) [c5dir]).map
          (fun s => (s.pid, s.id))
        = [(some 300, s2l (r"s0")), (some 200, s2l (r"s1")),
           (some 100, s2l (r"s2"))]) := by
  refine ⟨sessionsLoop_eq_withRanks, withRanks_rank, parse_rank_oob, by decide⟩

/-- Witness for C5: the rank clause applied at a concrete trace and the
out-of-bounds clause applied to an empty directory. -/
theorem c5_ranking_witness :
    ((withRanks [c5dir] c5procs (fun _ => 0)).get? 0
        = some ({ pid := 300, cwd := some (s2l (r"/w")), cpu_usage := 0 },
            s2l (r"/w"), c5dir, 0)
      ∧ (0 : Nat) = (fun _ : List Char => 0) c5dir.dir_name
          + ((withRanks [c5dir] c5procs (fun _ => 0)).take 0).countP
              (fun y => y.2.2.1.dir_name == c5dir.dir_name))
    ∧ parse_project_session [] (s2l (r"/p")) none 0 0 1 = none :=
  ⟨⟨by decide,
    c5_ranking.2.1 [c5dir] c5procs (fun _ => 0) 0
      { pid := 300, cwd := some (s2l (r"/w")), cpu_usage := 0 }
      (s2l (r"/w")) c5dir 0 (by decide)⟩,
   c5_ranking.2.2.1 [] (s2l (r"/p")) none 0 0 1 (by decide)⟩

/-! ## Tail reader lemmas (C1, C8) -/

theorem utf8Lossy_ascii_cons (b : Nat) (rest : List Nat) (h : b < 0x80) :
    utf8Lossy (b :: rest) = Char.ofNat b :: utf8Lossy rest := by
  rw [utf8Lossy.eq_def]
  dsimp only
  rw [if_pos h]

theorem utf8Lossy_replicate (m b : Nat) (rest : List Nat) (h : b < 0x80) :
    utf8Lossy (List.replicate m b ++ rest)
      = List.replicate m (Char.ofNat b) ++ utf8Lossy rest := by
  induction m with
  | zero => simp
  | succ k ih =>
      rw [List.replicate_succ, List.cons_append, utf8Lossy_ascii_cons _ _ h, ih,
        List.replicate_succ, List.cons_append]

theorem rlinesAux_rep (c : Char) (hc : c ≠ '\n') (m : Nat) :
    ∀ (acc rest : List Char),
      rlinesAux acc (List.replicate m c ++ rest)
        = rlinesAux (List.replicate m c ++ acc) rest := by
  induction m with
  | zero => intro acc rest; simp
  | succ k ih =>
      intro acc rest
      rw [List.replicate_succ, List.cons_append]
      rw [rlinesAux]
      rw [if_neg hc, ih (c :: acc) rest]
      congr 1
      have h2 : List.replicate k c ++ c :: acc
          = (List.replicate k c ++ [c]) ++ acc := by simp
      rw [h2, ← List.replicate_succ', List.replicate_succ, List.cons_append]

theorem rlinesAux_nl (acc rest : List Char) :
    rlinesAux acc ('\n' :: rest) = stripCr acc.reverse :: rlinesAux [] rest := by
  rw [rlinesAux]
  rw [if_pos rfl]

theorem stripCr_rep (c : Char) (hc : c ≠ '\r') (m : Nat) :
    stripCr (List.replicate m c) = List.replicate m c := by
  unfold stripCr
  cases m with
  | zero => simp
  | succ k =>
      rw [List.replicate_succ', List.getLast?_concat]
      rw [if_neg (by simpa using hc)]

theorem char10_eq : Char.ofNat 10 = '\n' := by decide

theorem fileC1_length : fileC1.length = 65536 := by
  have h1 : fileC1
      = List.replicate 32767 97 ++ [10] ++ (10 :: List.replicate 32767 98) := rfl
  rw [h1, List.length_append, List.length_append, List.length_cons,
    List.length_replicate, List.length_cons, List.length_replicate,
    List.length_nil]

theorem firstHalfC1_length : (List.replicate 32767 97 ++ [10]).length = 32768 := by
  rw [List.length_append, List.length_replicate, List.length_cons,
    List.length_nil]

theorem fileC1_drop : fileC1.drop 32768 = 10 :: List.replicate 32767 98 := by
  rw [fileC1, show (32768 : Nat) = (List.replicate 32767 97 ++ [10]).length
    from firstHalfC1_length.symm, List.drop_left]

theorem fileC1_take : fileC1.take 32768 = List.replicate 32767 97 ++ [10] := by
  rw [fileC1, show (32768 : Nat) = (List.replicate 32767 97 ++ [10]).length
    from firstHalfC1_length.symm, List.take_left]

theorem chunkB_decode :
    utf8Lossy (10 :: List.replicate 32767 98) = '\n' :: List.replicate 32767 'b' := by
  rw [utf8Lossy_ascii_cons _ _ (by norm_num)]
  have h := utf8Lossy_replicate 32767 98 [] (by norm_num)
  rw [List.append_nil] at h
  rw [h, char10_eq, show Char.ofNat 98 = 'b' from by decide]
  rw [show utf8Lossy [] = [] from rfl, List.append_nil]

theorem chunkA_decode :
    utf8Lossy (List.replicate 32767 97 ++ [10])
      = List.replicate 32767 'a' ++ ['\n'] := by
  rw [utf8Lossy_replicate 32767 97 [10] (by norm_num),
    utf8Lossy_ascii_cons 10 [] (by norm_num), char10_eq,
    show Char.ofNat 97 = 'a' from by decide,
    show utf8Lossy [] = [] from rfl]

theorem rlinesB :
    rlines ('\n' :: List.replicate 32767 'b') = [[], List.replicate 32767 'b'] := by
  unfold rlines
  rw [rlinesAux_nl]
  have hb := rlinesAux_rep 'b' (by decide) 32767 [] []
  rw [List.append_nil] at hb
  rw [hb, rlinesAux]
  rw [if_neg (by simp [List.isEmpty_iff])]
  rw [List.reverse_replicate, show stripCr (List.reverse []) = [] from rfl]

theorem rlinesA :
    rlines (List.replicate 32767 'a' ++ ['\n']) = [List.replicate 32767 'a'] := by
  unfold rlines
  have ha := rlinesAux_rep 'a' (by decide) 32767 [] ['\n']
  rw [List.append_nil] at ha
  rw [ha, rlinesAux_nl, List.reverse_replicate,
    stripCr_rep 'a' (by decide) 32767]
  rw [show rlinesAux [] [] = [] from rfl]

theorem pushRev_one (l : List Char) (acc : List (List Char)) (n : Nat) :
    pushRev [l] acc n = acc ++ [l] := by
  unfold pushRev
  rw [List.reverse_singleton]
  rw [pushRevAux]
  split
  · rfl
  · rw [pushRevAux]

theorem pushRevB :
    pushRev [List.replicate 32767 'b'] [] 3 = [List.replicate 32767 'b'] := by
  rw [pushRev_one, List.nil_append]

theorem pushRevA :
    pushRev [List.replicate 32767 'a'] [List.replicate 32767 'b'] 3
      = [List.replicate 32767 'b', List.replicate 32767 'a'] := by
  rw [pushRev_one]
  rfl

theorem take32768B :
    (10 :: List.replicate 32767 98).take 32768 = 10 :: List.replicate 32767 98 := by
  rw [show (32768 : Nat) = (10 :: List.replicate 32767 98).length from by
    rw [List.length_cons, List.length_replicate], List.take_length]

theorem c1_step1 :
    chunkLoop fileC1 3 3 65536 [] []
      = chunkLoop fileC1 3 2 32768 [List.replicate 32767 'b'] [] := by
  have hne : ¬([[], List.replicate 32767 'b'] : List (List Char)) = [] :=
    List.cons_ne_nil _ _
  conv_lhs =>
    rw [show (3 : Nat) = 2 + 1 from rfl]
    rw [chunkLoop]
    rw [if_pos (by constructor <;> norm_num)]
    norm_num [CHUNK_SIZE]
    rw [fileC1_drop, take32768B, chunkB_decode, rlinesB]
    rw [if_neg hne]
    rw [List.tail_cons, List.head?_cons, Option.getD_some, pushRevB]

theorem c1_step2 :
    chunkLoop fileC1 3 2 32768 [List.replicate 32767 'b'] []
      = ([List.replicate 32767 'b', List.replicate 32767 'a'], []) := by
  conv_lhs =>
    rw [show (2 : Nat) = 1 + 1 from rfl]
    rw [chunkLoop]
    rw [if_pos ⟨by rw [List.length_singleton]; norm_num, by norm_num⟩]
    norm_num [CHUNK_SIZE]
    rw [fileC1_take, chunkA_decode, rlinesA]
    rw [pushRevA]
    rw [show (1 : Nat) = 0 + 1 from rfl]
    rw [chunkLoop]
    rw [if_neg (by norm_num)]

/-- C1 (code bug): on the 64 KiB file `fileC1` whose two 32 KiB chunks meet
exactly at the newline pair of an empty line, the file's lines are
`a`×32767, the empty line, `b`×32767 — but `read_last_lines` with k = 3
returns only two lines: the empty line at the chunk boundary is dropped,
because the loop turns the partial first line of the later chunk into an
empty remainder and thereby forgets the line boundary. -/
theorem c1_tail_correctness_bug :
    rlines (utf8Lossy fileC1)
      = [List.replicate 32767 'a', [], List.replicate 32767 'b']
    ∧ read_last_lines fileC1 3
      = some [List.replicate 32767 'a', List.replicate 32767 'b'] := by
  constructor
  · have h1 : fileC1
        = List.replicate 32767 97 ++ (10 :: 10 :: List.replicate 32767 98) := by
      rw [fileC1, List.append_assoc]
      rfl
    rw [h1, utf8Lossy_replicate _ _ _ (by norm_num),
      utf8Lossy_ascii_cons _ _ (by norm_num),
      utf8Lossy_ascii_cons _ _ (by norm_num)]
    have h2 := utf8Lossy_replicate 32767 98 [] (by norm_num)
    rw [show utf8Lossy ([] : List Nat) = [] from rfl, List.append_nil,
      List.append_nil] at h2
    rw [h2, char10_eq, show Char.ofNat 97 = 'a' from by decide,
      show Char.ofNat 98 = 'b' from by decide]
    unfold rlines
    have ha := rlinesAux_rep 'a' (by decide) 32767 []
      ('\n' :: '\n' :: List.replicate 32767 'b')
    rw [List.append_nil] at ha
    rw [ha, rlinesAux_nl, List.reverse_replicate,
      stripCr_rep 'a' (by decide) 32767, rlinesAux_nl]
    rw [show stripCr (List.reverse ([] : List Char)) = [] from rfl]
    have hb := rlinesAux_rep 'b' (by decide) 32767 [] []
    rw [List.append_nil] at hb
    rw [hb, rlinesAux]
    rw [if_neg (by simp [List.isEmpty_iff])]
    rw [List.reverse_replicate]
  · unfold read_last_lines
    dsimp only
    rw [fileC1_length]
    rw [if_neg (by norm_num)]
    rw [if_neg (by norm_num [SMALL_FILE_LIMIT])]
    norm_num [CHUNK_SIZE]
    rw [c1_step1, c1_step2]
    rw [if_neg (fun h => h.1 rfl)]

theorem utf8Lossy_inv_cons (b : Nat) (rest : List Nat)
    (h1 : 0x80 ≤ b) (h2 : b < 0xC2) :
    utf8Lossy (b :: rest) = replChar :: utf8Lossy rest := by
  rw [utf8Lossy.eq_def]
  dsimp only
  rw [if_neg (by omega), if_neg (by omega), if_neg (by omega), if_neg (by omega)]

theorem utf8Lossy_c3nil : utf8Lossy [195] = [replChar] := by
  rw [utf8Lossy.eq_def]
  dsimp only
  rw [if_neg (by norm_num), if_pos (by norm_num)]

theorem fileC8big_length : fileC8big.length = 65536 := by
  have h1 : fileC8big = List.replicate 32766 120 ++ [10, 0xC3]
      ++ (0xA9 :: 10 :: List.replicate 32766 121) := rfl
  rw [h1, List.length_append, List.length_append, List.length_cons,
    List.length_cons, List.length_replicate, List.length_cons,
    List.length_cons, List.length_replicate, List.length_nil]

theorem firstHalfC8_length :
    (List.replicate 32766 120 ++ [10, 0xC3]).length = 32768 := by
  rw [List.length_append, List.length_replicate, List.length_cons,
    List.length_cons, List.length_nil]

theorem fileC8big_drop :
    fileC8big.drop 32768 = 0xA9 :: 10 :: List.replicate 32766 121 := by
  rw [fileC8big, show (32768 : Nat) = (List.replicate 32766 120 ++ [10, 0xC3]).length
    from firstHalfC8_length.symm, List.drop_left]

theorem fileC8big_take :
    fileC8big.take 32768 = List.replicate 32766 120 ++ [10, 0xC3] := by
  rw [fileC8big, show (32768 : Nat) = (List.replicate 32766 120 ++ [10, 0xC3]).length
    from firstHalfC8_length.symm, List.take_left]

theorem take32768B8 :
    (0xA9 :: 10 :: List.replicate 32766 121).take 32768
      = 0xA9 :: 10 :: List.replicate 32766 121 := by
  rw [show (32768 : Nat) = (0xA9 :: 10 :: List.replicate 32766 121).length from by
    rw [List.length_cons, List.length_cons, List.length_replicate],
    List.take_length]

theorem chunkB8_decode :
    utf8Lossy (0xA9 :: 10 :: List.replicate 32766 121)
      = replChar :: '\n' :: List.replicate 32766 'y' := by
  rw [utf8Lossy_inv_cons 0xA9 _ (by norm_num) (by norm_num)]
  rw [utf8Lossy_ascii_cons _ _ (by norm_num)]
  have h := utf8Lossy_replicate 32766 121 [] (by norm_num)
  rw [show utf8Lossy ([] : List Nat) = [] from rfl, List.append_nil,
    List.append_nil] at h
  rw [h, char10_eq, show Char.ofNat 121 = 'y' from by decide]

theorem chunkA8_decode :
    utf8Lossy (List.replicate 32766 120 ++ [10, 195])
      = List.replicate 32766 'x' ++ ['\n', replChar] := by
  rw [utf8Lossy_replicate 32766 120 [10, 195] (by norm_num)]
  rw [utf8Lossy_ascii_cons 10 [195] (by norm_num)]
  rw [utf8Lossy_c3nil, char10_eq, show Char.ofNat 120 = 'x' from by decide]

theorem rlinesB8 :
    rlines (replChar :: '\n' :: List.replicate 32766 'y')
      = [[replChar], List.replicate 32766 'y'] := by
  unfold rlines
  rw [rlinesAux]
  rw [if_neg (by decide)]
  rw [rlinesAux_nl]
  rw [show stripCr (List.reverse [replChar]) = [replChar] from by decide]
  have hb := rlinesAux_rep 'y' (by decide) 32766 [] []
  rw [List.append_nil] at hb
  rw [hb, rlinesAux, if_neg (by simp [List.isEmpty_iff]), List.reverse_replicate]

theorem rlinesA8 :
    rlines ((List.replicate 32766 'x' ++ ['\n', replChar]) ++ [replChar])
      = [List.replicate 32766 'x', [replChar, replChar]] := by
  rw [List.append_assoc]
  rw [show (['\n', replChar] ++ [replChar] : List Char)
    = '\n' :: [replChar, replChar] from rfl]
  unfold rlines
  have hx := rlinesAux_rep 'x' (by decide) 32766 [] ('\n' :: [replChar, replChar])
  rw [List.append_nil] at hx
  rw [hx, rlinesAux_nl, List.reverse_replicate, stripCr_rep 'x' (by decide) 32766]
  rw [show rlinesAux [] [replChar, replChar] = [[replChar, replChar]] from by decide]

theorem pushRevB8 :
    pushRev [List.replicate 32766 'y'] [] 3 = [List.replicate 32766 'y'] := by
  rw [pushRev_one, List.nil_append]

theorem pushRevC8 :
    pushRev [List.replicate 32766 'x', [replChar, replChar]]
      [List.replicate 32766 'y'] 3
      = [List.replicate 32766 'y', [replChar, replChar],
         List.replicate 32766 'x'] := by
  unfold pushRev
  rw [show ([List.replicate 32766 'x', [replChar, replChar]]).reverse
    = [[replChar, replChar], List.replicate 32766 'x'] from rfl]
  rw [pushRevAux]
  rw [if_neg (by
    rw [List.length_append, List.length_singleton, List.length_singleton]
    norm_num)]
  rw [pushRevAux]
  rw [if_pos (by
    rw [List.length_append, List.length_append, List.length_singleton,
      List.length_singleton, List.length_singleton])]
  rfl

theorem c8_step1 :
    chunkLoop fileC8big 3 3 65536 [] []
      = chunkLoop fileC8big 3 2 32768 [List.replicate 32766 'y'] [replChar] := by
  have hne8 : ¬([[replChar], List.replicate 32766 'y'] : List (List Char)) = [] :=
    List.cons_ne_nil _ _
  conv_lhs =>
    rw [show (3 : Nat) = 2 + 1 from rfl]
    rw [chunkLoop]
    rw [if_pos (by constructor <;> norm_num)]
    norm_num [CHUNK_SIZE]
    rw [fileC8big_drop, take32768B8, chunkB8_decode, rlinesB8]
    rw [if_neg hne8]
    rw [List.tail_cons, List.head?_cons, Option.getD_some, pushRevB8]

theorem c8_step2 :
    chunkLoop fileC8big 3 2 32768 [List.replicate 32766 'y'] [replChar]
      = ([List.replicate 32766 'y', [replChar, replChar],
          List.replicate 32766 'x'], []) := by
  conv_lhs =>
    rw [show (2 : Nat) = 1 + 1 from rfl]
    rw [chunkLoop]
    rw [if_pos ⟨by rw [List.length_singleton]; norm_num, by norm_num⟩]
    norm_num [CHUNK_SIZE]
    rw [fileC8big_take, chunkA8_decode, rlinesA8]
    rw [pushRevC8]
    rw [show (1 : Nat) = 0 + 1 from rfl]
    rw [chunkLoop]
    rw [if_neg (by norm_num)]

/-- C8 counterexample: in the small-file path (< 64 KiB) a line containing
an invalid byte (0xFF) is dropped entirely by `lines().flatten()` rather
than substituted: the 3-line file comes back as 2 lines, so not every line
of the file is represented. -/
theorem c8_lenient_decoding_counterexample :
    read_last_lines fileC8small 10 = some [s2l (r"ok"), s2l (r"bye")]
    ∧ (byteLines fileC8small).length = 3
    ∧ utf8Decode [0xFF, 10] = none := by
  refine ⟨by decide, by decide, by decide⟩

/-- C8 (amended): `read_last_lines` never aborts or returns `None` because
of invalid bytes; in the chunked path (files of 64 KiB and more) invalid or
truncated sequences — including a two-byte character split across the
32 KiB chunk boundary, as in `fileC8big` — are substituted with
replacement characters and every line of the file remains represented; in
the small-file path, however, lines containing invalid UTF-8 are dropped
entirely rather than substituted. -/
theorem c8_lenient_decoding :
    (∀ (bs : List Nat) (n : Nat), (read_last_lines bs n).isSome = true)
    ∧ read_last_lines fileC8big 3
      = some [List.replicate 32766 'x', [replChar, replChar],
              List.replicate 32766 'y'] := by
  constructor
  · intro bs n
    unfold read_last_lines
    dsimp only
    split
    · rfl
    · split
      · rfl
      · rfl
  · unfold read_last_lines
    dsimp only
    rw [fileC8big_length]
    rw [if_neg (by norm_num), if_neg (by norm_num [SMALL_FILE_LIMIT])]
    norm_num [CHUNK_SIZE]
    rw [c8_step1, c8_step2]
    rw [if_neg (fun h => h.1 rfl)]
